import Mathlib

/-!
# Verification of `megpy.localequilibrium.LocalEquilibrium`

A shallow embedding of the numerical core of `megpy/localequilibrium.py`
(geometry models, poloidal-field models, cost functions, the analytic
geometry extractor, the radial-grid construction, the fit-loop seeding and
the derivative-label bookkeeping of `LocalEquilibrium.__init__`), together
with theorems settling the specification claims about it.

Modelling conventions:

* Machine floats are modelled as real numbers.  Where NaN propagation is
  observable (`np.arcsin` outside `[-1, 1]`), a scalar is `Option ℝ` with
  `none` standing for NaN; numpy elementwise operations map NaN inputs to
  NaN outputs, so a NaN `x = arcsin δ` turns every entry of the result
  arrays into NaN.
* A Python function that can raise is embedded as `Except String α`; the
  error string records the Python exception.  A function that always
  returns normally keeps a plain result type.
* numpy arrays are Lean lists; elementwise array arithmetic is `List.map`
  or `List.zipWith` over lists of equal length.
-/

namespace Megpy

open Real

/-- Embedding of `np.arcsin`: real arcsine on `[-1, 1]`, NaN (`none`) outside it. -/
noncomputable def npArcsin (d : ℝ) : Option ℝ :=
  if |d| ≤ 1 then some (Real.arcsin d) else none

/-- Modelled from the spec: `arctan2pi` from the repository's `utils`
module (not under `src/`) — "a four-quadrant arctangent normalized to
`[0, 2π)`", applied as `theta_ref = atan2pi(Z−Z0, R−R0)`. -/
noncomputable def arctan2pi (y x : ℝ) : ℝ :=
  let a := Complex.arg ⟨x, y⟩
  if a < 0 then a + 2 * Real.pi else a

/-- Python exception raised at line 292 of the source,
`with np.errstate(invalid=='ignore'):` — the name `invalid` is undefined
(and `np.errstate` accepts no positional argument), so `miller` raises
before computing anything. -/
def nameErrorInvalid : String := "NameError: name invalid is not defined"

/-- The computation of `LocalEquilibrium.miller` from line 293 on
(`x = arcsin δ`, `θ_R = θ + x sin θ`, `R = R0 + r cos θ_R`,
`Z = Z0 + κ r sin θ`, `theta_ref = arctan2pi(Z−Z0, R−R0)`, optional
center subtraction) — what the function body performs after the faulty
`errstate` line. -/
noncomputable def millerCore (R0 Z0 r kappa delta : ℝ) (theta : List ℝ)
    (norm : Bool) : List (Option ℝ) × List (Option ℝ) × List (Option ℝ) :=
  let x := npArcsin delta
  -- θ_R = θ + x·sin θ and R = R0 + r·cos θ_R are NaN whenever x is NaN
  let R := theta.map fun t => x.map fun xv =>
    R0 + r * Real.cos (t + xv * Real.sin t)
  -- Z never touches arcsin δ and stays finite
  let Z := theta.map fun t => some (Z0 + kappa * r * Real.sin t)
  -- arctan2(Z−Z0, NaN) is NaN
  let tref := List.zipWith
    (fun Rv Zv => Rv.bind fun Rr => Zv.map fun Zz => arctan2pi (Zz - Z0) (Rr - R0))
    R Z
  ((if norm then R.map (Option.map (· - R0)) else R),
   (if norm then Z.map (Option.map (· - Z0)) else Z),
   tref)

/-- Embedding of `LocalEquilibrium.miller` as it stands in the source: its first
statement is `with np.errstate(invalid=='ignore'):` (a `==` where `=` was
meant), which raises a `NameError` on every call, so the function never
reaches the computation embodied in `millerCore`. -/
def miller (_R0 _Z0 _r _kappa _delta : ℝ) (_theta : List ℝ) (_norm : Bool) :
    Except String (List (Option ℝ) × List (Option ℝ) × List (Option ℝ)) :=
  .error nameErrorInvalid

/-- Embedding of `LocalEquilibrium.turnbull`: adds squareness `ζ`;
`θ_Z = θ + ζ sin 2θ`, `Z = Z0 + κ r sin θ_Z`.  Its `errstate` line is
well-formed (`invalid='ignore'`), so an out-of-domain `δ` makes
`x = arcsin δ` NaN, which propagates into `R` (through `θ_R`) and into
`theta_ref` (through `arctan2`), while `Z` — which never uses `x` —
stays finite. -/
noncomputable def turnbull (R0 Z0 r kappa delta zeta : ℝ) (theta : List ℝ)
    (norm : Bool) :
    Except String (List (Option ℝ) × List (Option ℝ) × List (Option ℝ)) :=
  .ok <|
    let x := npArcsin delta
    let R := theta.map fun t => x.map fun xv =>
      R0 + r * Real.cos (t + xv * Real.sin t)
    let Z := theta.map fun t =>
      some (Z0 + kappa * r * Real.sin (t + zeta * Real.sin (2 * t)))
    let tref := List.zipWith
      (fun Rv Zv => Rv.bind fun Rr => Zv.map fun Zz =>
        arctan2pi (Zz - Z0) (Rr - R0))
      R Z
    ((if norm then R.map (Option.map (· - R0)) else R),
     (if norm then Z.map (Option.map (· - Z0)) else Z),
     tref)

/-- Embedding of `LocalEquilibrium.turnbull_tilt`: as `turnbull` with
`θ_R = θ + x sin θ + tilt`; again only `R` and `theta_ref` depend on
`arcsin δ`. -/
noncomputable def turnbull_tilt (R0 Z0 r kappa delta zeta tilt : ℝ)
    (theta : List ℝ) (norm : Bool) :
    Except String (List (Option ℝ) × List (Option ℝ) × List (Option ℝ)) :=
  .ok <|
    let x := npArcsin delta
    let R := theta.map fun t => x.map fun xv =>
      R0 + r * Real.cos (t + xv * Real.sin t + tilt)
    let Z := theta.map fun t =>
      some (Z0 + kappa * r * Real.sin (t + zeta * Real.sin (2 * t)))
    let tref := List.zipWith
      (fun Rv Zv => Rv.bind fun Rr => Zv.map fun Zz =>
        arctan2pi (Zz - Z0) (Rr - R0))
      R Z
    ((if norm then R.map (Option.map (· - R0)) else R),
     (if norm then Z.map (Option.map (· - Z0)) else Z),
     tref)

/-- Python exception raised at line 322 of the source,
`dRdtheta = - r * np.sin(theta_R)(1 + x * np.cos(theta))` — a missing `*`
turns the parenthesis into a call of an array, raising `TypeError` as soon
as the `numerical` branch of `miller_bp` runs. -/
def typeErrorNotCallable : String :=
  "TypeError: numpy.ndarray object is not callable"

/-- Python exception for `return Bp_param` when `method` matched neither
`analytical` nor `numerical`, so `Bp_param` was never assigned. -/
def unboundLocalBpParam : String :=
  "UnboundLocalError: local variable Bp_param referenced before assignment"

/-- One element of the `analytical` branch of `LocalEquilibrium.miller_bp`
(`x` is the already-computed `arcsin δ`). -/
noncomputable def millerBpAnaPt (dR0dr _dZ0dr s_kappa s_delta : ℝ)
    (kappa : ℝ) (x : ℝ) (t Rv dPsi_dr : ℝ) : ℝ :=
  let theta_R := t + x * Real.sin t
  let Bp_nom := Real.sqrt (Real.sin theta_R ^ 2 + (1 + x * Real.cos t) ^ 2 +
    kappa ^ 2 * Real.cos t ^ 2)
  let Bp_denom := Real.cos (x * Real.sin t) + dR0dr * Real.cos t +
    (s_kappa - s_delta * Real.cos t + (1 + s_kappa) * x * Real.cos t) *
      Real.sin t * Real.sin theta_R
  dPsi_dr / (Rv * kappa) * Bp_nom / Bp_denom

/-- Embedding of `LocalEquilibrium.miller_bp`.  The `analytical` branch returns the
closed-form field (NaN arrays when `|δ| > 1`); the `numerical` branch
always raises `TypeError` because of the missing `*` at line 322; any
other `method` raises `UnboundLocalError` at `return Bp_param`. -/
noncomputable def miller_bp (dR0dr dZ0dr s_kappa s_delta : ℝ)
    (R0 Z0 r kappa delta : ℝ) (theta R : List ℝ) (dPsi_dr : ℝ)
    (method : String) : Except String (List (Option ℝ)) :=
  if method = "analytical" then
    .ok <|
      match npArcsin delta with
      | none => R.map fun _ => none
      | some x => List.zipWith
          (fun t Rv => some (millerBpAnaPt dR0dr dZ0dr s_kappa s_delta
            kappa x t Rv dPsi_dr)) theta R
  else if method = "numerical" then .error typeErrorNotCallable
  else .error unboundLocalBpParam

/-- The denominator of the `analytical` branch of
`LocalEquilibrium.turnbull_bp` at one poloidal angle (`x = arcsin δ`). -/
noncomputable def turnbullBpDenom (dR0dr dZ0dr s_kappa s_delta s_zeta : ℝ)
    (kappa zeta : ℝ) (x : ℝ) (t : ℝ) : ℝ :=
  let theta_R := t + x * Real.sin t
  let dtheta_Rdtheta := 1 + x * Real.cos t
  let theta_Z := t + zeta * Real.sin (2 * t)
  let dtheta_Zdtheta := 1 + 2 * zeta * Real.cos (2 * t)
  kappa * Real.cos theta_Z * dtheta_Zdtheta *
      (dR0dr + Real.cos theta_R - s_delta * Real.sin t * Real.sin theta_R) +
    Real.sin theta_R * dtheta_Rdtheta *
      (dZ0dr + kappa * ((s_kappa + 1) * Real.sin theta_Z +
        s_zeta * Real.sin (2 * t) * Real.cos theta_Z))

/-- One element of the `analytical` branch of
`LocalEquilibrium.turnbull_bp`. -/
noncomputable def turnbullBpAnaPt (dR0dr dZ0dr s_kappa s_delta s_zeta : ℝ)
    (kappa zeta : ℝ) (x : ℝ) (t Rv dPsi_dr : ℝ) : ℝ :=
  let theta_R := t + x * Real.sin t
  let dtheta_Rdtheta := 1 + x * Real.cos t
  let theta_Z := t + zeta * Real.sin (2 * t)
  let dtheta_Zdtheta := 1 + 2 * zeta * Real.cos (2 * t)
  let Bp_nom := Real.sqrt (Real.sin theta_R ^ 2 * dtheta_Rdtheta ^ 2 +
    kappa ^ 2 * Real.cos theta_Z ^ 2 * dtheta_Zdtheta ^ 2)
  dPsi_dr / Rv * Bp_nom /
    turnbullBpDenom dR0dr dZ0dr s_kappa s_delta s_zeta kappa zeta x t

/-- One element of the `numerical` branch of
`LocalEquilibrium.turnbull_bp`: derivatives of the parametrisation, the
flux-surface Jacobian `J_r = R (dR/dr dZ/dθ − dR/dθ dZ/dr)`, arclength
`dl/dθ`, `|∇r| = (R/J_r) dl/dθ`, `Bp = (dΨ/dr / R) |∇r|`. -/
noncomputable def turnbullBpNumPt (dR0dr dZ0dr s_kappa s_delta s_zeta : ℝ)
    (r kappa zeta : ℝ) (x : ℝ) (t Rv dPsi_dr : ℝ) : ℝ :=
  let theta_R := t + x * Real.sin t
  let dtheta_Rdtheta := 1 + x * Real.cos t
  let theta_Z := t + zeta * Real.sin (2 * t)
  let dRdtheta := -r * Real.sin theta_R * dtheta_Rdtheta
  let dZdtheta := kappa * r * Real.cos theta_Z * (1 + 2 * zeta * Real.cos (2 * t))
  let dRdr := dR0dr + Real.cos theta_R - s_delta * Real.sin t * Real.sin theta_R
  let dZdr := dZ0dr + kappa * ((s_kappa + 1) * Real.sin theta_Z +
    s_zeta * Real.sin (2 * t) * Real.cos theta_Z)
  let J_r := Rv * (dRdr * dZdtheta - dRdtheta * dZdr)
  let dl_dtheta := Real.sqrt (dRdtheta ^ 2 + dZdtheta ^ 2)
  let grad_r_norm := Rv / J_r * dl_dtheta
  dPsi_dr / Rv * grad_r_norm

/-- Embedding of `LocalEquilibrium.turnbull_bp`: elementwise over `zip theta R`, with
NaN arrays when `|δ| > 1`, and `UnboundLocalError` for an unknown
`method`. -/
noncomputable def turnbull_bp (dR0dr dZ0dr s_kappa s_delta s_zeta : ℝ)
    (R0 Z0 r kappa delta zeta : ℝ) (theta R : List ℝ) (dPsi_dr : ℝ)
    (method : String) : Except String (List (Option ℝ)) :=
  if method = "analytical" then
    .ok <|
      match npArcsin delta with
      | none => R.map fun _ => none
      | some x => List.zipWith
          (fun t Rv => some (turnbullBpAnaPt dR0dr dZ0dr s_kappa s_delta s_zeta
            kappa zeta x t Rv dPsi_dr)) theta R
  else if method = "numerical" then
    .ok <|
      match npArcsin delta with
      | none => R.map fun _ => none
      | some x => List.zipWith
          (fun t Rv => some (turnbullBpNumPt dR0dr dZ0dr s_kappa s_delta s_zeta
            r kappa zeta x t Rv dPsi_dr)) theta R
  else .error unboundLocalBpParam

/-! ## Analytic geometry extractor (`extract_analytic_geo`), squareness -/

/-- The four quadrant angles `theta_zeta = [π/4, 3π/4, 5π/4, 7π/4]`. -/
noncomputable def thetaZeta : Fin 4 → ℝ
  | 0 => 0.25 * Real.pi
  | 1 => 0.75 * Real.pi
  | 2 => 1.25 * Real.pi
  | 3 => 1.75 * Real.pi

/-- Lines 591–594 of the source: per-quadrant inversion
`zeta_4q = arcsin((Z_ζ − Z0)/(κ r))/sin(2 θ_ζ)` followed by the periodic
correction `[1,−1,−1,1] * zeta_4q + [0,−π,−π,0]`.  `Z_zeta` is the
interpolated `Z` value of the reconstructed Miller curve at each quadrant
angle. -/
noncomputable def zeta4q (Z0 kappa r : ℝ) (Z_zeta : Fin 4 → ℝ) : Fin 4 → ℝ :=
  fun i =>
    let raw := Real.arcsin ((Z_zeta i - Z0) / (kappa * r)) /
      Real.sin (2 * thetaZeta i)
    (match i with | 0 => raw | 1 => -raw | 2 => -raw | 3 => raw) +
    (match i with | 0 => 0 | 1 => -Real.pi | 2 => -Real.pi | 3 => 0)

/-- Lines 596–599: the four labelled quadrant values.  Note the source
subtracts `theta_zeta[1]/sin(2 theta_zeta[1])` for `zeta_li` and
`theta_zeta[0]/sin(2 theta_zeta[0])` for `zeta_lo`, reusing the first two
quadrant angles for the lower two quadrants. -/
noncomputable def zetaQuadrants (Z0 kappa r : ℝ) (Z_zeta : Fin 4 → ℝ) :
    Fin 4 → ℝ :=
  fun i =>
    let z := zeta4q Z0 kappa r Z_zeta
    match i with
    | 0 => z 0 - thetaZeta 0 / Real.sin (2 * thetaZeta 0)
    | 1 => z 1 - thetaZeta 1 / Real.sin (2 * thetaZeta 1)
    | 2 => z 2 - thetaZeta 1 / Real.sin (2 * thetaZeta 1)
    | 3 => z 3 - thetaZeta 0 / Real.sin (2 * thetaZeta 0)

/-- Line 602: the returned squareness
`zeta = 0.25 (zeta_uo + zeta_ui + zeta_li + zeta_lo)`. -/
noncomputable def extractZeta (Z0 kappa r : ℝ) (Z_zeta : Fin 4 → ℝ) : ℝ :=
  0.25 * (zetaQuadrants Z0 kappa r Z_zeta 0 + zetaQuadrants Z0 kappa r Z_zeta 1 +
    zetaQuadrants Z0 kappa r Z_zeta 2 + zetaQuadrants Z0 kappa r Z_zeta 3)

/-- The per-quadrant corrected value exactly as the claim words it:
invert, sign-flip and π-shift the middle quadrants, then subtract
`θ_q / sin(2 θ_q)` for *that same quadrant's* angle. -/
noncomputable def zetaQuadrantsClaimed (Z0 kappa r : ℝ) (Z_zeta : Fin 4 → ℝ) :
    Fin 4 → ℝ :=
  fun i => zeta4q Z0 kappa r Z_zeta i - thetaZeta i / Real.sin (2 * thetaZeta i)

/-! ## Cost function (`cost_param`) -/

/-- Embedding of `np.hstack` over a list of arrays. -/
def hstack (ls : List (List ℝ)) : List ℝ := ls.flatten

/-- Elementwise difference of two equal-length arrays. -/
def arrSub (a b : List ℝ) : List ℝ := List.zipWith (· - ·) a b

/-- Lines 495–519 of the source, parametrised by the arrays the method
reads from the object state: `Rparam, Zparam, thetaRef` are the output of
`self.param(params, …, norm=True)`, `Rinterp, Zinterp` are the
`interp1d` interpolants of the reference contour, `p0, p1` are
`params[0], params[1]`, and `fpol_psi` is the scalar
`interp1d(psi, fpol)(self.fs[psi])`.  Returns the residual vector for the
selected cost mode; an unrecognized mode leaves `cost` unassigned and the
final `return cost` raises. -/
noncomputable def cost_param (n_theta : ℕ) (Rparam Zparam thetaRef : List ℝ)
    (Rinterp Zinterp : ℝ → ℝ) (p0 p1 : ℝ) (fpol_psi : ℝ)
    (mode : String) : Except String (List ℝ) :=
  let Rref := thetaRef.map fun t => Rinterp t - p0
  let Zref := thetaRef.map fun t => Zinterp t - p1
  -- np.abs(np.array([R_param, Z_param]) - np.array([R_ref, Z_ref])).flatten()
  let L1_norm := hstack (([arrSub Rparam Rref, arrSub Zparam Zref]).map
    fun row => row.map fun v => |v|)
  let L2_norm := List.zipWith
    (fun p q => Real.sqrt ((p.1 - q.1) ^ 2 + (p.2 - q.2) ^ 2))
    (Rparam.zip Zparam) (Rref.zip Zref)
  if mode = "l1l2" then
    .ok ((hstack [L2_norm, L1_norm]).map ((n_theta : ℝ) * ·))
  else
    let Bt_param := Rparam.map fun Rv => fpol_psi / (Rv + p0)
    let Bt_ref := Rref.map fun Rv => fpol_psi / (Rv + p0)
    if mode = "Bt4" then
      let filt := Bt_ref.map (· ^ 4)
      .ok (hstack [List.zipWith (· * ·) filt L2_norm,
        List.zipWith (· * ·) L1_norm (hstack [filt, filt])])
    else if mode = "l1Bt" then
      let L1_btor := List.zipWith (fun br bp => br ^ 2 * |bp - br|)
        Bt_ref Bt_param
      .ok ((hstack [L1_norm, L1_btor]).map ((n_theta : ℝ) * ·))
    else .error "UnboundLocalError: local variable cost referenced before assignment"

/-! ## Model label tables (`LocalEquilibrium._methods`) -/

/-- Harmonic label block `[aR_n, bR_n, aZ_n, bZ_n]` for `n = 1..H`. -/
def fourierBlock (n : ℕ) : List String :=
  ["aR_" ++ toString n, "bR_" ++ toString n,
   "aZ_" ++ toString n, "bZ_" ++ toString n]

/-- The `param_labels` of each entry of `self._methods`, keyed by the method
name, for harmonic count `H` (`n_harmonics`). -/
def param_labels (method : String) (H : ℕ) : List String :=
  if method = "miller" then ["R0", "Z0", "r", "kappa", "delta"]
  else if method = "turnbull" then ["R0", "Z0", "r", "kappa", "delta", "zeta"]
  else if method = "turnbull_tilt" then
    ["R0", "Z0", "r", "kappa", "delta", "zeta", "tilt"]
  else if method = "miller_general" then
    ["aR_0", "aZ_0"] ++ ((List.range H).map fun n => fourierBlock (n + 1)).flatten
  else if method = "mxh" then
    ["R0", "Z0", "r", "kappa", "c_0"] ++
      ((List.range H).map fun n =>
        ["c_" ++ toString (n + 1), "s_" ++ toString (n + 1)]).flatten
  else []

/-- The `bpol_labels` of each entry of `self._methods`. -/
def bpol_labels (method : String) (H : ℕ) : List String :=
  if method = "miller" then ["dR0dr", "dZ0dr", "s_kappa", "s_delta"]
  else if method = "turnbull" then
    ["dR0dr", "dZ0dr", "s_kappa", "s_delta", "s_zeta"]
  else if method = "turnbull_tilt" then
    ["dR0dr", "dZ0dr", "s_kappa", "s_delta", "s_zeta", "s_tilt"]
  else if method = "miller_general" then
    (["aR_0", "aZ_0"] ++
      ((List.range H).map fun n => fourierBlock (n + 1)).flatten).map
        fun l => "d" ++ l ++ "dr"
  else if method = "mxh" then
    ["dR0dr", "dZ0dr", "s_kappa", "dc_0dr"] ++
      ((List.range H).map fun n =>
        ["dc_" ++ toString (n + 1) ++ "dr",
         "ds_" ++ toString (n + 1) ++ "dr"]).flatten
  else []

/-- The keys that lines 222–229 may place in `s_deriv`; every other bpol
label falls into the `else` branch of line 231–235. -/
def sDerivKeys : List String := ["s_kappa", "s_delta", "s_zeta", "s_tilt"]

/-- The shape label whose radial gradient the `else` branch at line 235
uses for the `i`-th bpol label: `self.param_labels[i_key]` — the *same
position* `i` in `param_labels`, whatever label sits there. -/
def bpolElseSource (method : String) (H : ℕ) (i : ℕ) : Option String :=
  (param_labels method H)[i]?

/-- The bpol label that names the radial derivative of shape parameter
`base`: the `'d{}dr'.format(label)` convention of lines 63/73. -/
def derivLabel (base : String) : String := "d" ++ base ++ "dr"

/-! ## Exact-match lookup (`self.x_grid.index(self.x_loc)`) -/

/-- Python exception raised by `list.index` on a missing element. -/
def valueErrorNotInList : String := "ValueError: x is not in list"

/-- Python's `list.index`: linear scan for the first exact match, raising
`ValueError` when the value is absent.  This is the lookup used at lines
207, 212–214, 237 etc. as `self.x_grid.index(self.x_loc)`. -/
noncomputable def listIndex : List ℝ → ℝ → Except String ℕ
  | [], _ => .error valueErrorNotInList
  | y :: ys, x =>
      if y = x then .ok 0 else (listIndex ys x).map (· + 1)

/-! ## Fit-loop seeding (`__init__`, lines 152–192)

The per-surface data are abstracted as lookup maps: `mg i` is
`self.fs['miller_geo']` (the analytic-extractor output) at grid point `i`
and `fsv i` is the per-surface dict `self.fs` (which holds `R0`, `Z0`,
`r`, … copied from the equilibrium).  The optimiser is an oracle
`fit : ℕ → List ℚ → List ℚ` from an initial guess to the fitted vector.
Values are rationals: the seeding logic only moves data, it never does
real arithmetic. -/

/-- Lines 152–157: for each label, overwrite `param_initial[i]` with the
`miller_geo` value when present, else with the flux-surface value when
present, else leave the current entry. -/
def seedStep (labels : List String) (mg fsv : String → Option ℚ)
    (cur : List ℚ) : List ℚ :=
  (labels.zip cur).map fun p =>
    match mg p.1 with
    | some v => v
    | none => match fsv p.1 with
      | some v => v
      | none => p.2

/-- The tail of the fit loop starting at grid point `i` with the current
contents `cur` of the persistent `param_initial` list, for `k` more grid
points. -/
def fitLoopFrom (labels : List String) (mg fsv : ℕ → String → Option ℚ)
    (fit : ℕ → List ℚ → List ℚ) (i : ℕ) (cur : List ℚ) :
    ℕ → List (List ℚ × List ℚ)
  | 0 => []
  | k + 1 =>
      let s := seedStep labels (mg i) (fsv i) cur
      (s, fit i s) :: fitLoopFrom labels mg fsv fit (i + 1) s k

/-- The fit loop over the radial grid: `param_initial` is a single list
that persists across iterations (it is an alias of
`self._methods[method]['param_initial']`); each iteration seeds it in
place (lines 152–157) and then runs the optimiser from it (line 169); the
fitted vector `self.params` is never written back into `param_initial`.
Returns the per-point `(seed, fitted)` pairs in grid order. -/
def fitLoop (labels : List String) (mg fsv : ℕ → String → Option ℚ)
    (fit : ℕ → List ℚ → List ℚ) (init : List ℚ) (n : ℕ) :
    List (List ℚ × List ℚ) :=
  fitLoopFrom labels mg fsv fit 0 init n

/-! ## Constructor frame property (`__init__`, lines 83–287)

Python objects live on a heap and are passed by reference.  We model the
heap of equilibrium objects as a list indexed by address; an equilibrium
object is a bag of named array fields (flux surfaces and derived
quantities).  Line 84, `self.eq = copy.deepcopy(equilibrium)`, allocates
a structurally equal but fresh object; every subsequent write of the
constructor (`self.eq.fluxsurfaces = {}`, `…['fit_geo'] = {}`,
`merge_trees(self.fs, …)`, the shear-key stores of lines 233/235, the
`_opt` stores of line 286) goes through `self.eq`, i.e. to the fresh
address. -/

/-- An equilibrium object: named flux-surface fields and named derived
fields. -/
structure EqData where
  fluxsurfaces : List (String × List ℝ)
  derived : List (String × List ℝ)

/-- Store a flux-surface field on an equilibrium object. -/
def setFluxKey (k : String) (v : List ℝ) (e : EqData) : EqData :=
  { e with fluxsurfaces := (k, v) :: e.fluxsurfaces }

/-- Embedding of `LocalEquilibrium.__init__` restricted to its heap effect on
equilibrium objects: deep-copy the caller's object at address `addr` into
a fresh address at the end of the heap, then apply every constructor
write `ws` to the fresh copy.  Returns the new heap and the address of
`self.eq`. -/
def localEqInit (heap : List EqData) (addr : ℕ) (ws : List (EqData → EqData)) :
    List EqData × ℕ :=
  let copied := heap.getD addr ⟨[], []⟩    -- copy.deepcopy(equilibrium)
  let selfEq := ws.foldl (fun e w => w e) copied
  (heap ++ [selfEq], heap.length)

/-- The accumulation writes of the constructor, as heap-object updates:
reset `fluxsurfaces` (line 107), create `fit_geo` (line 113), merge each
per-surface fitted record (line 199), store each bpol-labelled shear
profile (lines 233/235) and the `_opt` values (line 286). -/
def constructorWrites (fitted : List (String × List ℝ))
    (shears : List (String × List ℝ)) (opts : List (String × List ℝ)) :
    List (EqData → EqData) :=
  [fun e => { e with fluxsurfaces := [] },
   setFluxKey "fit_geo" []] ++
  fitted.map (fun p => setFluxKey p.1 p.2) ++
  shears.map (fun p => setFluxKey p.1 p.2) ++
  opts.map (fun p => setFluxKey (p.1 ++ "_opt") p.2)

/-! ## Radial grid construction (`__init__`, lines 100–104) -/

/-- Embedding of `np.linspace` over the reals with endpoint included (`num` samples;
`num = 1` gives `[start]` as numpy does). -/
noncomputable def linspace (a b : ℝ) (num : ℕ) : List ℝ :=
  if num = 0 then []
  else if num = 1 then [a]
  else (List.range num).map fun i : ℕ =>
    a + (i : ℝ) * ((b - a) / ((num : ℝ) - 1))

/-- Lines 102–104: the radial grid — two half-linspaces of
`int(n_x/2)` points over `[x_loc·(1−0.005), x_loc]` and
`[x_loc, x_loc·(1+0.005)]`, the first with its last point (`x_loc`)
dropped, concatenated, then filtered to `0 ≤ x ≤ 1`. -/
noncomputable def xGrid (x_loc : ℝ) (n_x : ℕ) : List ℝ :=
  let m := n_x / 2
  let xlist1 := linspace (x_loc - x_loc * 0.005) x_loc m
  let xlist2 := linspace x_loc (x_loc + x_loc * 0.005) m
  (xlist1.dropLast ++ xlist2).filter fun x => decide (0 ≤ x ∧ x ≤ 1)

/-- Checks, for one model and harmonic count, that every bpol label
outside `s_deriv` is paired by line 235 with the shape parameter it is
the derivative of: position `i` of `bpol_labels` against position `i` of
`param_labels`. -/
def pairingCheck (method : String) (H : ℕ) : Bool :=
  (List.range (bpol_labels method H).length).all fun i =>
    let bl := (bpol_labels method H).getD i ""
    decide (bl ∈ sDerivKeys) ||
      (match bpolElseSource method H i with
       | some p => bl == derivLabel p
       | none => false)

/-! ## Helper lemmas -/

/-- Zipping a NaN-strict binary operation against an all-NaN left array
yields an all-NaN array. -/
theorem zipWith_replicate_none_left {α β γ : Type*}
    (f : Option α → β → Option γ) (hf : ∀ b, f none b = none) :
    ∀ (l : List β) (n : ℕ), n = l.length →
      List.zipWith f (List.replicate n none) l = List.replicate n none := by
  intro l
  induction l with
  | nil => intro n h; subst h; rfl
  | cons b t ih =>
    intro n h
    subst h
    simp only [List.length_cons, List.replicate_succ, List.zipWith_cons_cons,
      hf, ih t.length rfl]

/-- A `zipWith` congruence from pointwise agreement on the zipped pairs. -/
theorem zipWith_congr_mem {α β γ : Type*} (f g : α → β → γ) :
    ∀ (as : List α) (bs : List β),
      (∀ p ∈ as.zip bs, f p.1 p.2 = g p.1 p.2) →
      List.zipWith f as bs = List.zipWith g as bs := by
  intro as
  induction as with
  | nil => intro bs _; simp
  | cons a as ih =>
    intro bs h
    cases bs with
    | nil => simp
    | cons b bs =>
      simp only [List.zipWith_cons_cons]
      rw [h (a, b) (by simp), ih bs (fun p hp => h p (by simp [hp]))]

/-! ## C1: the miller circle -/

/-- Claim C1.  The claim says `miller` with `κ = 1`, `δ = 0` returns the
circle `R = R0 + r cos θ`, `Z = Z0 + r sin θ`.  The claim correctly
describes the computation the function body was written to perform
(second conjunct: `millerCore`, the body from line 293 onwards, produces
exactly that circle, for every `R0`, `Z0`, `r` and θ grid), but the code
as committed never performs it: its first statement
`with np.errstate(invalid=='ignore'):` (line 292, `==` where `=` was
meant) raises a `NameError` on every call (first conjunct). -/
theorem miller_circle_code_bug :
    (∀ (R0 Z0 r kappa delta : ℝ) (theta : List ℝ) (norm : Bool),
      miller R0 Z0 r kappa delta theta norm = .error nameErrorInvalid) ∧
    (∀ (R0 Z0 r : ℝ) (theta : List ℝ),
      (millerCore R0 Z0 r 1 0 theta false).1 =
        theta.map (fun t => some (R0 + r * Real.cos t)) ∧
      (millerCore R0 Z0 r 1 0 theta false).2.1 =
        theta.map (fun t => some (Z0 + r * Real.sin t))) := by
  refine ⟨fun _ _ _ _ _ _ _ => rfl, fun R0 Z0 r theta => ?_⟩
  have h : npArcsin 0 = some 0 := by
    simp [npArcsin]
  constructor <;>
    simp [millerCore, h, List.map_map, Function.comp_def]

/-! ## C2: domain handling of `arcsin δ` -/

/-- Claim C2, counterexample.  At `δ = 2` (so `|δ| > 1`) the `turnbull`
model does not fail with a `GeometryDomainError` (no such error type
exists in the code): it returns normally, with every `R` and `theta_ref`
entry NaN — the numpy invalid-operation warning having been suppressed
by `np.errstate(invalid='ignore')` — while `Z = Z0 + κ r sin θ_Z`, which
never touches `arcsin δ`, stays finite (here `Z = [0.0]`). -/
theorem turnbull_nan_counterexample :
    turnbull 1 0 1 1 2 0 [0] false = .ok ([none], [some 0], [none]) := by
  have h : npArcsin 2 = none := by
    simp only [npArcsin]
    rw [if_neg (by norm_num)]
  simp [turnbull, h]

/-- Claim C2, amended: for `|δ| > 1` no geometry model raises a
`GeometryDomainError`.  `turnbull` and `turnbull_tilt` return normally
with every `R` and `theta_ref` entry NaN (`arcsin δ` is NaN and
propagates through `θ_R` into `R` and through `arctan2` into
`theta_ref`, warnings suppressed) while each `Z` entry stays the finite
`Z0 + κ r sin θ_Z` (center-subtracted when `norm` is set); `miller`
raises — but with the unrelated `NameError` of its line-292 `errstate`
typo, for every `δ`. -/
theorem geometry_domain_no_error (delta : ℝ) (h : 1 < |delta|) :
    (∀ (R0 Z0 r kappa zeta : ℝ) (theta : List ℝ) (norm : Bool),
      turnbull R0 Z0 r kappa delta zeta theta norm =
        .ok (theta.map fun _ => none,
             theta.map fun t =>
               some (Z0 + kappa * r * Real.sin (t + zeta * Real.sin (2 * t)) -
                 if norm then Z0 else 0),
             theta.map fun _ => none)) ∧
    (∀ (R0 Z0 r kappa zeta tilt : ℝ) (theta : List ℝ) (norm : Bool),
      turnbull_tilt R0 Z0 r kappa delta zeta tilt theta norm =
        .ok (theta.map fun _ => none,
             theta.map fun t =>
               some (Z0 + kappa * r * Real.sin (t + zeta * Real.sin (2 * t)) -
                 if norm then Z0 else 0),
             theta.map fun _ => none)) ∧
    (∀ (R0 Z0 r kappa : ℝ) (theta : List ℝ) (norm : Bool),
      miller R0 Z0 r kappa delta theta norm = .error nameErrorInvalid) := by
  have hna : npArcsin delta = none := by
    simp only [npArcsin]
    rw [if_neg (not_le.mpr h)]
  refine ⟨fun R0 Z0 r kappa zeta theta norm => ?_,
    fun R0 Z0 r kappa zeta tilt theta norm => ?_,
    fun _ _ _ _ _ _ => rfl⟩ <;>
  · cases norm <;>
    · simp [turnbull, turnbull_tilt, hna, List.map_map, Function.comp_def]
      exact zipWith_replicate_none_left _ (fun _ => rfl) _ _ (by simp)

/-- Witness for `geometry_domain_no_error` at `δ = 2`. -/
theorem geometry_domain_no_error_witness :
    1 < |(2 : ℝ)| ∧
      turnbull 1 0 1 1 2 0 [0] true = .ok ([none], [some 0], [none]) := by
  have h : (1 : ℝ) < |2| := by norm_num
  refine ⟨h, ?_⟩
  have := (geometry_domain_no_error 2 h).1 1 0 1 1 0 [0] true
  simpa using this

/-! ## C3: poloidal-field methods -/

/-- Claim C3.  The claim says the `numerical` method of `miller_bp` is a
well-defined total function agreeing with the `analytical` one.  It is
not: line 322, `- r * np.sin(theta_R)(1 + x * np.cos(theta))`, lacks the
`*` before the parenthesis and calls the array, so every `numerical`
invocation of `miller_bp` raises a `TypeError` (for `turnbull_bp` the two
methods do agree exactly — see `turnbull_bp_analytical_eq_numerical`
below). -/
theorem miller_bp_numerical_crash :
    ∀ (dR0dr dZ0dr s_kappa s_delta R0 Z0 r kappa delta dPsi_dr : ℝ)
      (theta R : List ℝ),
      miller_bp dR0dr dZ0dr s_kappa s_delta R0 Z0 r kappa delta theta R
        dPsi_dr "numerical" = .error typeErrorNotCallable := by
  intros
  rfl

/-- Algebraic core of the Mercier–Luc identity: the Jacobian-based
`|∇r|` formula collapses to the closed-form ratio once the Jacobian
factors as `R · r · D` and the arclength integrand factors as `r² · S`. -/
theorem bp_pt_core (dψ Rv r kappa sR dθR cZ w A B : ℝ)
    (hr : 0 < r) (hR : Rv ≠ 0)
    (hD : kappa * cZ * w * A + sR * dθR * B ≠ 0) :
    dψ / Rv * (Rv / (Rv * (A * (kappa * r * cZ * w) - -r * sR * dθR * B)) *
        Real.sqrt ((-r * sR * dθR) ^ 2 + (kappa * r * cZ * w) ^ 2)) =
      dψ / Rv * Real.sqrt (sR ^ 2 * dθR ^ 2 + kappa ^ 2 * cZ ^ 2 * w ^ 2) /
        (kappa * cZ * w * A + sR * dθR * B) := by
  have key : (-r * sR * dθR) ^ 2 + (kappa * r * cZ * w) ^ 2 =
      r ^ 2 * (sR ^ 2 * dθR ^ 2 + kappa ^ 2 * cZ ^ 2 * w ^ 2) := by ring
  have hJ : A * (kappa * r * cZ * w) - -r * sR * dθR * B =
      r * (kappa * cZ * w * A + sR * dθR * B) := by ring
  rw [key, Real.sqrt_mul (sq_nonneg r), Real.sqrt_sq hr.le, hJ]
  field_simp
  ring

/-- Pointwise agreement of the `analytical` and `numerical` branches of
`turnbull_bp` at one poloidal angle, given a nondegenerate surface
(`r > 0`), a nonzero major radius sample and a nonsingular closed-form
denominator. -/
theorem turnbull_bp_pt_agree
    (dR0dr dZ0dr s_kappa s_delta s_zeta r kappa zeta x t Rv dψ : ℝ)
    (hr : 0 < r) (hR : Rv ≠ 0)
    (hD : turnbullBpDenom dR0dr dZ0dr s_kappa s_delta s_zeta kappa zeta x t ≠ 0) :
    turnbullBpNumPt dR0dr dZ0dr s_kappa s_delta s_zeta r kappa zeta x t Rv dψ =
      turnbullBpAnaPt dR0dr dZ0dr s_kappa s_delta s_zeta kappa zeta x t Rv dψ := by
  simp only [turnbullBpDenom] at hD
  simp only [turnbullBpNumPt, turnbullBpAnaPt, turnbullBpDenom]
  exact bp_pt_core dψ Rv r kappa _ _ _ _ _ _ hr hR hD

/-- The `analytical` and `numerical` methods of `turnbull_bp` return
identical arrays whenever `|δ| ≤ 1`, `r > 0`, and each sample has a
nonzero major radius and a nonsingular closed-form denominator. -/
theorem turnbull_bp_analytical_eq_numerical
    (dR0dr dZ0dr s_kappa s_delta s_zeta R0 Z0 r kappa delta zeta dPsi_dr : ℝ)
    (theta R : List ℝ) (hd : |delta| ≤ 1) (hr : 0 < r)
    (hpt : ∀ p ∈ theta.zip R, p.2 ≠ 0 ∧
      turnbullBpDenom dR0dr dZ0dr s_kappa s_delta s_zeta kappa zeta
        (Real.arcsin delta) p.1 ≠ 0) :
    turnbull_bp dR0dr dZ0dr s_kappa s_delta s_zeta R0 Z0 r kappa delta zeta
      theta R dPsi_dr "analytical" =
    turnbull_bp dR0dr dZ0dr s_kappa s_delta s_zeta R0 Z0 r kappa delta zeta
      theta R dPsi_dr "numerical" := by
  have hx : npArcsin delta = some (Real.arcsin delta) := by
    simp only [npArcsin]
    rw [if_pos hd]
  simp only [turnbull_bp, hx]
  simp only [if_true]
  rw [if_neg (show ¬("numerical" : String) = "analytical" by decide)]
  refine congrArg _ ?_
  refine (zipWith_congr_mem _ _ theta R fun p hp => ?_)
  rcases hpt p hp with ⟨hRv, hD⟩
  exact congrArg some
    (turnbull_bp_pt_agree dR0dr dZ0dr s_kappa s_delta s_zeta r kappa zeta
      (Real.arcsin delta) p.1 p.2 dPsi_dr hr hRv hD).symm

/-! ## C4: bpol label / shape label pairing -/

/-- Claim C4.  The claim says that for *every* model each non-`s_*` bpol
label is the `(dx/dr)`-scaled gradient of the shape parameter it names.
That holds for `miller`, `turnbull`, `turnbull_tilt` and
`miller_general`, whose label lists are position-aligned, but fails for
`mxh`: its `bpol_labels` has one entry fewer than `param_labels` (no
derivative label for `r`), so from position 3 on the `else` branch of
line 235 reads the wrong shape profile — `dc_0dr` is computed from
`kappa` instead of `c_0`. -/
theorem bpol_label_pairing_code_bug :
    pairingCheck "miller" 1 = true ∧
    pairingCheck "turnbull" 1 = true ∧
    pairingCheck "turnbull_tilt" 1 = true ∧
    pairingCheck "miller_general" 1 = true ∧
    pairingCheck "miller_general" 3 = true ∧
    pairingCheck "mxh" 1 = false ∧
    (bpol_labels "mxh" 1)[3]? = some "dc_0dr" ∧
    "dc_0dr" ∉ sDerivKeys ∧
    bpolElseSource "mxh" 1 3 = some "kappa" ∧
    "dc_0dr" ≠ derivLabel "kappa" ∧
    "dc_0dr" = derivLabel "c_0" := by
  decide

/-! ## C5: squareness extraction -/

/-- Claim C5.  The extractor's returned squareness `zeta` equals the
average of the four per-quadrant values corrected exactly as the claim
describes (each quadrant subtracting its *own* `θ_q/sin 2θ_q`): the
source's reuse of `theta_zeta[1]` and `theta_zeta[0]` for the two lower
quadrants (lines 598–599) shifts `zeta_li` and `zeta_lo` by `+2π` and
`−2π` respectively, which cancels in the four-way average. -/
theorem extract_zeta_matches_claim (Z0 kappa r : ℝ) (Zz : Fin 4 → ℝ) :
    extractZeta Z0 kappa r Zz =
      0.25 * (zetaQuadrantsClaimed Z0 kappa r Zz 0 +
        zetaQuadrantsClaimed Z0 kappa r Zz 1 +
        zetaQuadrantsClaimed Z0 kappa r Zz 2 +
        zetaQuadrantsClaimed Z0 kappa r Zz 3) := by
  have s0 : Real.sin (2 * (0.25 * Real.pi)) = 1 := by
    rw [show (2 : ℝ) * (0.25 * Real.pi) = Real.pi / 2 by ring]
    exact Real.sin_pi_div_two
  have s1 : Real.sin (2 * (0.75 * Real.pi)) = -1 := by
    rw [show (2 : ℝ) * (0.75 * Real.pi) = Real.pi + Real.pi / 2 by ring,
      Real.sin_add]
    simp
  have s2 : Real.sin (2 * (1.25 * Real.pi)) = 1 := by
    rw [show (2 : ℝ) * (1.25 * Real.pi) = 2 * Real.pi + Real.pi / 2 by ring,
      Real.sin_add]
    simp
  have s3 : Real.sin (2 * (1.75 * Real.pi)) = -1 := by
    rw [show (2 : ℝ) * (1.75 * Real.pi) =
        2 * Real.pi + (Real.pi + Real.pi / 2) by ring,
      Real.sin_add, Real.sin_add]
    simp
  simp only [extractZeta, zetaQuadrants, zetaQuadrantsClaimed, zeta4q,
    thetaZeta, s0, s1, s2, s3]
  ring

/-! ## C6: fit-loop seeding -/

/-- The per-point seeds of the fit loop do not depend on the optimiser's
results, whatever grid point the loop starts from. -/
theorem fitLoopFrom_seeds_independent (labels : List String)
    (mg fsv : ℕ → String → Option ℚ) (f g : ℕ → List ℚ → List ℚ) :
    ∀ (k i : ℕ) (cur : List ℚ),
      (fitLoopFrom labels mg fsv f i cur k).map Prod.fst =
      (fitLoopFrom labels mg fsv g i cur k).map Prod.fst := by
  intro k
  induction k with
  | zero => intro i cur; rfl
  | succ k ih => intro i cur; simp [fitLoopFrom, ih]

/-- Claim C6, counterexample.  One label (`kappa`, default initial guess 1)
with no prior-analysis value and no flux-surface value anywhere, and an
optimiser that always returns `[7]`: the claim says the second grid
point's initial guess is the first point's fitted value `[7]`, but the
code seeds `[1]` — the fitted vector is never written back into
`param_initial`. -/
theorem seed_ignores_fitted_counterexample :
    (fitLoop ["kappa"] (fun _ _ => none) (fun _ _ => none)
        (fun _ _ => [7]) [1] 2).map Prod.fst = [[1], [1]] ∧
    (fitLoop ["kappa"] (fun _ _ => none) (fun _ _ => none)
        (fun _ _ => [7]) [1] 2).map Prod.snd = [[7], [7]] ∧
    ([1] : List ℚ) ≠ [7] := by
  decide

/-- Claim C6, amended: each grid point's initial guess is the persistent
`param_initial` list after that point's seeding — prior-analysis value if
present, else the flux-surface value, else the entry carried over from
the *previous point's seeding* (`seedStep`/`fitLoopFrom`); the fitted
parameters never feed back, so the seed sequence is the same for any two
optimisers. -/
theorem seeds_independent_of_fit (labels : List String)
    (mg fsv : ℕ → String → Option ℚ) (f g : ℕ → List ℚ → List ℚ)
    (init : List ℚ) (n : ℕ) :
    (fitLoop labels mg fsv f init n).map Prod.fst =
    (fitLoop labels mg fsv g init n).map Prod.fst :=
  fitLoopFrom_seeds_independent labels mg fsv f g n 0 init

/-! ## C7: the default `l1l2` residual -/

/-- Claim C7.  Under the default cost mode `l1l2`, `cost_param` returns
`n_theta` times the concatenation of the pointwise Euclidean distance
`√((R_param−R_ref)² + (Z_param−Z_ref)²)` with the elementwise `|ΔR|`
followed by `|ΔZ|`, for every parameter vector (entering here through
the evaluated curves `Rparam`, `Zparam`, `thetaRef` and the offsets
`p0`, `p1`). -/
theorem cost_param_l1l2_spec (n_theta : ℕ) (Rparam Zparam thetaRef : List ℝ)
    (Rinterp Zinterp : ℝ → ℝ) (p0 p1 fpol : ℝ) :
    cost_param n_theta Rparam Zparam thetaRef Rinterp Zinterp p0 p1 fpol
        "l1l2" =
      .ok (((List.zipWith
            (fun p q => Real.sqrt ((p.1 - q.1) ^ 2 + (p.2 - q.2) ^ 2))
            (Rparam.zip Zparam)
            ((thetaRef.map fun t => Rinterp t - p0).zip
              (thetaRef.map fun t => Zinterp t - p1))) ++
          ((arrSub Rparam (thetaRef.map fun t => Rinterp t - p0)).map
            fun v => |v|) ++
          ((arrSub Zparam (thetaRef.map fun t => Zinterp t - p1)).map
            fun v => |v|)).map ((n_theta : ℝ) * ·)) := by
  simp [cost_param, hstack, List.append_assoc]

/-! ## C8: target-location lookup -/

/-- Claim C8, counterexample.  With grid `[0.4, 0.6]` and target `0.5` the
lookup `self.x_grid.index(self.x_loc)` raises Python's plain
`ValueError` — not a `GridAlignmentError`, a type that exists nowhere in
the code. -/
theorem lookup_valueerror_counterexample :
    listIndex [0.4, 0.6] 0.5 = .error valueErrorNotInList ∧
    valueErrorNotInList ≠ "GridAlignmentError" := by
  constructor
  · simp only [listIndex]
    rw [if_neg (show ¬(0.4 : ℝ) = 0.5 by norm_num),
      if_neg (show ¬(0.6 : ℝ) = 0.5 by norm_num)]
    rfl
  · decide

/-- Claim C8, amended: every lookup of a target location absent from the
grid fails with `list.index`'s `ValueError` (so still an exception, never
a silently wrong index, but not the claimed `GridAlignmentError`). -/
theorem listIndex_not_found (xs : List ℝ) (x : ℝ) (h : x ∉ xs) :
    listIndex xs x = .error valueErrorNotInList := by
  induction xs with
  | nil => rfl
  | cons y ys ih =>
    simp only [List.mem_cons, not_or] at h
    simp only [listIndex]
    rw [if_neg fun e => h.1 e.symm, ih h.2]
    rfl

/-- Witness for `listIndex_not_found` at target `3`, grid `[1, 2]`. -/
theorem listIndex_not_found_witness :
    (3 : ℝ) ∉ [1, 2] ∧ listIndex [1, 2] 3 = .error valueErrorNotInList := by
  have h : (3 : ℝ) ∉ [1, 2] := by
    simp only [List.mem_cons, List.not_mem_nil, or_false]
    push_neg
    norm_num
  exact ⟨h, listIndex_not_found [1, 2] 3 h⟩

/-! ## C9: the caller's equilibrium is never mutated -/

/-- Claim C9.  The constructor deep-copies the equilibrium (line 84) and
applies every accumulation write to the copy at the fresh address, so
every pre-existing heap object — in particular the caller's equilibrium,
whatever address it lives at — is unchanged after the run. -/
theorem equilibrium_not_mutated (heap : List EqData) (addr : ℕ)
    (fitted shears opts : List (String × List ℝ)) (i : ℕ)
    (h : i < heap.length) :
    ((localEqInit heap addr (constructorWrites fitted shears opts)).1)[i]? =
      heap[i]? := by
  simp only [localEqInit]
  exact List.getElem?_append_left h

/-- Witness for `equilibrium_not_mutated` on a one-object heap. -/
theorem equilibrium_not_mutated_witness :
    0 < ([⟨[("psi", [1])], []⟩] : List EqData).length ∧
    ((localEqInit [⟨[("psi", [1])], []⟩] 0
        (constructorWrites [("kappa", [2])] [("s_kappa", [3])] [])).1)[0]? =
      ([⟨[("psi", [1])], []⟩] : List EqData)[0]? := by
  have h : 0 < ([⟨[("psi", [1])], []⟩] : List EqData).length := by simp
  exact ⟨h, equilibrium_not_mutated _ 0 _ _ _ 0 h⟩

/-! ## C10: the radial grid is strictly increasing and hits `x_loc` once -/

/-- In a strictly increasing list every member occurs exactly once. -/
theorem count_eq_one_of_pairwise_lt {l : List ℝ} {a : ℝ}
    (hp : l.Pairwise (· < ·)) (ha : a ∈ l) : l.count a = 1 := by
  induction l with
  | nil => cases ha
  | cons b t ih =>
    rcases List.pairwise_cons.mp hp with ⟨hb, ht⟩
    rcases List.mem_cons.mp ha with h | h
    · subst h
      have hnot : a ∉ t := fun hmem => lt_irrefl a (hb a hmem)
      rw [List.count_cons_self, List.count_eq_zero.mpr hnot]
    · rw [List.count_cons_of_ne (ne_of_gt (hb a h)), ih ht h]

/-- Taking `dropLast` of a map over `range m` shortens the range by one. -/
theorem dropLast_map_range (f : ℕ → ℝ) (m : ℕ) (hm : 1 ≤ m) :
    ((List.range m).map f).dropLast = (List.range (m - 1)).map f := by
  conv_lhs => rw [show m = (m - 1) + 1 by omega, List.range_succ]
  simp [List.dropLast_concat]

/-- Claim C10.  For `0 < x_loc ≤ 1` and `n_x ≥ 2` the radial grid of lines
102–104 is strictly increasing and contains `x_loc` exactly once — the
precondition the exact-match lookups of C8 rely on. -/
theorem x_grid_strictly_increasing_and_unique (x_loc : ℝ) (n_x : ℕ)
    (hx0 : 0 < x_loc) (hx1 : x_loc ≤ 1) (hn : 2 ≤ n_x) :
    (xGrid x_loc n_x).Pairwise (· < ·) ∧
    (xGrid x_loc n_x).count x_loc = 1 := by
  have hpx : (decide (0 ≤ x_loc ∧ x_loc ≤ 1)) = true := by
    simp [hx0.le, hx1]
  obtain ⟨m, hm⟩ : ∃ m, n_x / 2 = m := ⟨_, rfl⟩
  have hm1 : 1 ≤ m := by omega
  rcases eq_or_lt_of_le hm1 with h1 | h2
  · -- `int(n_x/2) = 1`: both half-linspaces are singletons, grid = [x_loc]
    have hm' : n_x / 2 = 1 := by omega
    have e0 : xGrid x_loc n_x = [x_loc] := by
      simp only [xGrid, hm', linspace]
      norm_num [List.filter_cons, hpx]
      exact ⟨hx0.le, hx1⟩
    rw [e0]
    refine ⟨List.pairwise_singleton _ _, ?_⟩
    simp
  · -- `int(n_x/2) ≥ 2`
    have hm0 : ¬(m = 0) := by omega
    have hmne1 : ¬(m = 1) := by omega
    have hcast : (1 : ℝ) ≤ ((m : ℝ) - 1) := by
      have : (2 : ℝ) ≤ (m : ℝ) := by exact_mod_cast h2
      linarith
    have hne : ((m : ℝ) - 1) ≠ 0 := by linarith
    set s : ℝ := x_loc * 0.005 / ((m : ℝ) - 1) with hs
    have hspos : 0 < s := by
      rw [hs]
      exact div_pos (by positivity) (by linarith)
    have hcastm : ((m - 1 : ℕ) : ℝ) = (m : ℝ) - 1 := by
      push_cast [hm1]
      ring
    have htop : x_loc - x_loc * 0.005 + ((m - 1 : ℕ) : ℝ) * s = x_loc := by
      rw [hcastm, hs]
      field_simp
    have e1 : xGrid x_loc n_x =
        ((List.range (m - 1)).map
            (fun i : ℕ => x_loc - x_loc * 0.005 + (i : ℝ) * s) ++
          (List.range m).map (fun j : ℕ => x_loc + (j : ℝ) * s)).filter
            (fun x => decide (0 ≤ x ∧ x ≤ 1)) := by
      have hb1 : x_loc - (x_loc - x_loc * 0.005) = x_loc * 0.005 := by ring
      have hb2 : x_loc + x_loc * 0.005 - x_loc = x_loc * 0.005 := by ring
      simp only [xGrid, hm, linspace]
      rw [if_neg hm0, if_neg hmne1, if_neg hm0, if_neg hmne1,
        dropLast_map_range _ m hm1]
      simp only [hb1, hb2, ← hs]
    have hmono : ∀ (c : ℝ) (a b : ℕ), a < b →
        c + (a : ℝ) * s < c + (b : ℝ) * s := by
      intro c a b hab
      have : (a : ℝ) < (b : ℝ) := by exact_mod_cast hab
      nlinarith
    have hpair : (((List.range (m - 1)).map
          (fun i : ℕ => x_loc - x_loc * 0.005 + (i : ℝ) * s) ++
        (List.range m).map (fun j : ℕ => x_loc + (j : ℝ) * s))).Pairwise
          (· < ·) := by
      apply List.pairwise_append.mpr
      refine ⟨(List.pairwise_lt_range (m - 1)).map
            (fun i : ℕ => x_loc - x_loc * 0.005 + (i : ℝ) * s)
            (fun a b hab => hmono _ a b hab),
        (List.pairwise_lt_range m).map (fun j : ℕ => x_loc + (j : ℝ) * s)
          (fun a b hab => hmono _ a b hab), ?_⟩
      intro u hu v hv
      rcases List.mem_map.mp hu with ⟨i, hi, rfl⟩
      rcases List.mem_map.mp hv with ⟨j, hj, rfl⟩
      have hi' : i < m - 1 := List.mem_range.mp hi
      have hlt : x_loc - x_loc * 0.005 + (i : ℝ) * s < x_loc := by
        calc x_loc - x_loc * 0.005 + (i : ℝ) * s
            < x_loc - x_loc * 0.005 + ((m - 1 : ℕ) : ℝ) * s :=
              hmono _ i (m - 1) hi'
          _ = x_loc := htop
      have hge : x_loc ≤ x_loc + (j : ℝ) * s :=
        le_add_of_nonneg_right (mul_nonneg (Nat.cast_nonneg j) hspos.le)
      exact lt_of_lt_of_le hlt hge
    have h0m : (0 : ℕ) ∈ List.range m := List.mem_range.mpr (by omega)
    have hmem : x_loc ∈ ((List.range (m - 1)).map
          (fun i : ℕ => x_loc - x_loc * 0.005 + (i : ℝ) * s) ++
        (List.range m).map (fun j : ℕ => x_loc + (j : ℝ) * s)) :=
      List.mem_append_right _ (List.mem_map.mpr ⟨0, h0m, by simp⟩)
    have hpairF := hpair.sublist
      (List.filter_sublist (p := fun x => decide (0 ≤ x ∧ x ≤ 1)) _)
    rw [e1]
    exact ⟨hpairF, count_eq_one_of_pairwise_lt hpairF
      (List.mem_filter.mpr ⟨hmem, hpx⟩)⟩

/-- Witness for `x_grid_strictly_increasing_and_unique` at
`x_loc = 1/2`, `n_x = 4`. -/
theorem x_grid_witness :
    ((0 : ℝ) < 1 / 2 ∧ (1 / 2 : ℝ) ≤ 1 ∧ 2 ≤ 4) ∧
    ((xGrid (1 / 2) 4).Pairwise (· < ·) ∧
      (xGrid (1 / 2) 4).count (1 / 2) = 1) :=
  ⟨⟨by norm_num, by norm_num, by norm_num⟩,
    x_grid_strictly_increasing_and_unique (1 / 2) 4 (by norm_num)
      (by norm_num) (by norm_num)⟩

/-- Concrete instance of `turnbull_bp_analytical_eq_numerical`: the
circle `R0 = 2`, `r = 1`, `κ = 1`, `δ = ζ = 0`, zero shears, one sample
at `θ = 0`, `R = 2`, `dΨ/dr = 1` satisfies its hypotheses. -/
theorem turnbull_bp_agree_example :
    turnbull_bp 0 0 0 0 0 2 0 1 1 0 0 [0] [2] 1 "analytical" =
      turnbull_bp 0 0 0 0 0 2 0 1 1 0 0 [0] [2] 1 "numerical" := by
  refine turnbull_bp_analytical_eq_numerical 0 0 0 0 0 2 0 1 1 0 0 1 [0] [2]
    (by norm_num) (by norm_num) ?_
  intro p hp
  simp only [List.zip_cons_cons, List.zip_nil_right, List.mem_singleton] at hp
  subst hp
  refine ⟨by norm_num, ?_⟩
  norm_num [turnbullBpDenom, Real.arcsin_zero]

end Megpy
